import Mathlib

/-!
Verification of the sequential shortcut recognition engine and session
controller of the shortcut-trainer web application.

The embedding translates:
* `useSequentialShortcut` from `src/utils/shortcut.ts` (the second, current
  variant in that file, with chord handling and Alt tracking) into a pure
  transition function `handleKey` on an explicit `EngineState`, with the
  per-step `setTimeout` modelled as an absolute deadline `timer : Option Nat`
  and the timeout callback as `fireTimer`;
* `normalizeKey` and `macKeyMap` from
  `src/components/games/AlignTopFirstShortcut.tsx`;
* the scoring parts of `ShortcutGameWrapper` (`difficultyTime`,
  `handleComplete`, `handleTimeout`) into a pure session state.
-/

namespace Shortcut

/-- A raw keyboard event as seen by `handleKey`: the raw key identifier and
the modifier flags the handler reads (`e.key`, `e.altKey`, `e.ctrlKey`,
`e.metaKey`). -/
structure KeyEvent where
  key : String
  altKey : Bool
  ctrlKey : Bool
  metaKey : Bool
deriving Repr, DecidableEq

/-- Configuration of one engine instance: the target `sequence` and
`timeoutMs` passed to `useSequentialShortcut`, plus the `isMac` platform
flag computed from `navigator.platform`. -/
structure SCConfig where
  sequence : List String
  timeoutMs : Nat
  isMac : Bool
deriving Repr, DecidableEq

/-- The mutable state of `useSequentialShortcut`: the React state cells
`progress`, `error`, `completed`, `currentKey`, `pressedKeys`, `altPressed`
and the pending per-step timer (`timerRef`), modelled as the absolute time
at which the armed timeout would fire (`none` when disarmed). -/
structure EngineState where
  progress : Nat
  error : Bool
  completed : Bool
  currentKey : Option String
  pressedKeys : List String
  altPressed : Bool
  timer : Option Nat
deriving Repr, DecidableEq

/-- JavaScript `String.toLowerCase()` as it applies to key identifiers:
per-character simple lowercasing (identical to `String.toLower`, but
written over `s.data` so that it reduces inside the kernel). -/
def lowercase (s : String) : String := ⟨s.data.map Char.toLower⟩

/-- The freshly mounted engine state. -/
def initState : EngineState :=
  { progress := 0, error := false, completed := false, currentKey := none,
    pressedKeys := [], altPressed := false, timer := none }

/-- The hook operation `reset`: clears every state cell and the pending timer. -/
def reset (_s : EngineState) : EngineState := initState

/-- The body of the `setTimeout` callback armed after an accepted
non-final key: sets the error flag and clears progress, matched keys and
the current key.  Firing consumes the timer. -/
def fireTimer (s : EngineState) : EngineState :=
  { s with error := true, progress := 0, pressedKeys := [],
           currentKey := none, altPressed := false, timer := none }

/-- The handler `handleKey` of the current `useSequentialShortcut`, as a pure function
of the configuration, the current time `now` (used to arm the per-step
deadline `now + timeoutMs`), the incoming event and the state. -/
def handleKey (cfg : SCConfig) (now : Nat) (e : KeyEvent) (s : EngineState) :
    EngineState :=
  if s.completed then s
  else
    let key := lowercase e.key
    let ctrl := if cfg.isMac then e.metaKey else e.ctrlKey
    let alt := e.altKey
    -- Track Alt key state
    let s1 := if key = "alt" then { s with altPressed := alt } else s
    -- Handle Ctrl+D type shortcuts (simultaneous press)
    if cfg.sequence.length = 2 ∧ cfg.sequence[0]? = some "ctrl" ∧
        cfg.sequence[1]? = some "d" then
      if ctrl = true ∧ key = "d" then
        { s1 with completed := true, progress := 2,
                  pressedKeys := ["ctrl", "d"] }
      else s1
    -- Handle Ctrl+G type shortcuts (simultaneous press)
    else if cfg.sequence.length = 2 ∧ cfg.sequence[0]? = some "ctrl" ∧
        cfg.sequence[1]? = some "g" then
      if ctrl = true ∧ key = "g" then
        { s1 with completed := true, progress := 2,
                  pressedKeys := ["ctrl", "g"] }
      else s1
    -- Handle sequential shortcuts (Alt + X + A + T, etc.)
    else if 2 < cfg.sequence.length then
      -- Start sequence with Alt
      if s1.progress = 0 ∧ key = "alt" ∧ alt = true then
        { s1 with progress := 1, error := false, currentKey := some key,
                  pressedKeys := [key], altPressed := true,
                  timer := some (now + cfg.timeoutMs) }
      -- Continue sequence after Alt (X, A, T, etc.)
      else if 0 < s1.progress ∧ cfg.sequence[s1.progress]? = some key then
        if s1.progress + 1 = cfg.sequence.length then
          { s1 with progress := s1.progress + 1, error := false,
                    currentKey := some key,
                    pressedKeys := s1.pressedKeys ++ [key],
                    completed := true, timer := none }
        else
          { s1 with progress := s1.progress + 1, error := false,
                    currentKey := some key,
                    pressedKeys := s1.pressedKeys ++ [key],
                    timer := some (now + cfg.timeoutMs) }
      -- Wrong key in sequence
      else if 0 < s1.progress then
        { s1 with error := true, progress := 0, pressedKeys := [],
                  currentKey := none, altPressed := false, timer := none }
      else s1
    else s1

/-- One event of a timed run.  The armed timeout fires at its deadline, so
it pre-empts any key event that arrives at or after the deadline. -/
def stepTimed (cfg : SCConfig) (s : EngineState) (te : Nat × KeyEvent) :
    EngineState :=
  let s' := match s.timer with
    | some d => if d ≤ te.1 then fireTimer s else s
    | none => s
  handleKey cfg te.1 te.2 s'

/-- Process a time-stamped event stream. -/
def runTimed (cfg : SCConfig) (s : EngineState)
    (es : List (Nat × KeyEvent)) : EngineState :=
  es.foldl (stepTimed cfg) s

/-- The predicate `withinChain timeout tprev es` holds when every event in `es` arrives
strictly before the per-step deadline armed at the previous event's time
(`tprev` for the first). -/
def withinChain (timeout : Nat) : Nat → List (Nat × KeyEvent) → Bool
  | _, [] => true
  | tprev, (t, _) :: rest =>
      decide (t < tprev + timeout) && withinChain timeout t rest

/-- The state entered by every error transition. -/
def errorState : EngineState := { initState with error := true }

/-- The primary-modifier flag read by the chord branches:
`isMac ? e.metaKey : e.ctrlKey`. -/
def primaryFlag (cfg : SCConfig) (e : KeyEvent) : Bool :=
  if cfg.isMac then e.metaKey else e.ctrlKey

/-- States reachable from the fresh engine by any interleaving of key
events, expiries of an armed timer, and resets. -/
inductive Reachable (cfg : SCConfig) : EngineState → Prop
  | init : Reachable cfg initState
  | key (s : EngineState) (now : Nat) (e : KeyEvent) :
      Reachable cfg s → Reachable cfg (handleKey cfg now e s)
  | expire (s : EngineState) (d : Nat) :
      Reachable cfg s → s.timer = some d → Reachable cfg (fireTimer s)
  | reset (s : EngineState) :
      Reachable cfg s → Reachable cfg (reset s)

/-- The catalog's `alignTop` sequence with the default 1500 ms timeout on
a non-mac platform. -/
def cfgAlignTop : SCConfig :=
  { sequence := ["alt", "x", "a", "t"], timeoutMs := 1500, isMac := false }

/-- The catalog's windows `duplicate` chord `['ctrl','d']`. -/
def cfgCtrlD : SCConfig :=
  { sequence := ["ctrl", "d"], timeoutMs := 1500, isMac := false }

/-- The catalog's mac `duplicate` chord `['cmd','d']` on a mac platform. -/
def cfgCmdD : SCConfig :=
  { sequence := ["cmd", "d"], timeoutMs := 1500, isMac := true }

/-- An `Alt` key-down with the Alt modifier flag held. -/
def evAlt : KeyEvent := { key := "Alt", altKey := true, ctrlKey := false,
                          metaKey := false }

/-- A plain letter key-down without modifier flags. -/
def evPlain (k : String) : KeyEvent :=
  { key := k, altKey := false, ctrlKey := false, metaKey := false }

/-- A `d` key-down with the meta (command) modifier held, as produced on a
mac when Cmd+D is pressed. -/
def evCmdD : KeyEvent := { key := "d", altKey := false, ctrlKey := false,
                           metaKey := true }

/-- A `d` key-down with the ctrl modifier held. -/
def evCtrlD : KeyEvent := { key := "d", altKey := false, ctrlKey := true,
                            metaKey := false }

/-- A `g` key-down with the ctrl modifier held. -/
def evCtrlG : KeyEvent := { key := "g", altKey := false, ctrlKey := true,
                            metaKey := false }

/-! ### Key normalizer (`AlignTopFirstShortcut.tsx`) -/

/-- The table `macKeyMap`: the fixed table of option-modified character codes and
the letters they stand for. -/
def macKeyMap : List (String × String) :=
  [("≈", "x"), ("å", "a"), ("†", "t"), ("∂", "d"), ("˙", "h"),
   ("π", "p"), ("ß", "s"), ("∑", "w"), ("∫", "b"), ("©", "g")]

/-- The test `/^[a-zA-Z]$/.test(key)`: exactly one ASCII letter. -/
def isSingleAsciiLetter (s : String) : Bool :=
  match s.data with
  | [c] => c.isAlpha
  | _ => false

/-- The function `normalizeKey` from `AlignTopFirstShortcut.tsx`: with Alt held a single
ASCII letter is lowercased directly; otherwise the substitution table is
consulted; otherwise the identifier is lowercased unchanged. -/
def normalizeKey (key : String) (altPressed : Bool) : String :=
  if altPressed && isSingleAsciiLetter key then lowercase key
  else
    match List.lookup key macKeyMap with
    | some v => v
    | none => lowercase key

/-! ### Session controller (`ShortcutGameWrapper`, `src/unnamed/part_004`) -/

/-- The difficulty tiers offered by the test configuration. -/
inductive Difficulty
  | easy
  | normal
  | hard
deriving Repr, DecidableEq

/-- The map `difficultyTime`: per-challenge time limit in seconds for each tier. -/
def difficultyTime : Difficulty → Nat
  | .easy => 8
  | .normal => 5
  | .hard => 3

/-- The session cells of `ShortcutGameWrapper` that scoring touches:
recorded per-attempt times (ms), the per-attempt timed-out flags, the
score, the total, the current challenge index and the summary flag.
`score` is kept as a `Nat`: it starts at the challenge count and every
update is `Math.max(0, prev - 1)`, which on nonnegative integers is
exactly truncated subtraction. -/
structure SessionState where
  times : List Nat
  timedOut : List Bool
  score : Nat
  total : Nat
  currentIdx : Nat
  showSummary : Bool
deriving Repr, DecidableEq

/-- Session state after the init effect for a random session of `k`
challenges: full score `k`, no attempts recorded. -/
def initSession (k : Nat) : SessionState :=
  { times := [], timedOut := [], score := k, total := k, currentIdx := 0,
    showSummary := false }

/-- The shared tail of `handleComplete`/`handleTimeout`: advance to the
next challenge or show the summary after the last one. -/
def advanceOrSummary (k : Nat) (s : SessionState) : SessionState :=
  if s.currentIdx < k - 1 then { s with currentIdx := s.currentIdx + 1 }
  else { s with showSummary := true }

/-- The handler `handleComplete`: record the measured elapsed time with a `false`
timed-out flag; the score is not touched. -/
def handleComplete (k : Nat) (elapsed : Nat) (s : SessionState) :
    SessionState :=
  advanceOrSummary k
    { s with times := s.times ++ [elapsed], timedOut := s.timedOut ++ [false] }

/-- The handler `handleTimeout`: record a constant 5000 ms with a `true` timed-out
flag and lose one point (`Math.max(0, prev - 1)`). -/
def handleTimeout (k : Nat) (s : SessionState) : SessionState :=
  advanceOrSummary k
    { s with times := s.times ++ [5000], timedOut := s.timedOut ++ [true],
             score := s.score - 1 }

/-- One challenge outcome as the wrapper sees it: `some elapsed` for a
completion (with its measured time), `none` for a countdown timeout. -/
def sessionStep (k : Nat) (s : SessionState) (o : Option Nat) :
    SessionState :=
  match o with
  | some elapsed => handleComplete k elapsed s
  | none => handleTimeout k s

/-- Run a whole session of `os.length` challenges with the given
outcomes. -/
def runSession (os : List (Option Nat)) : SessionState :=
  os.foldl (sessionStep os.length) (initSession os.length)

/-- The number of timed-out challenges among the outcomes. -/
def countTimedOut (os : List (Option Nat)) : Nat :=
  os.countP fun o => o.isNone

end Shortcut

namespace Shortcut

/-- Basic shape lemma: handling any event on a completed engine is a
no-op. -/
theorem handleKey_completed (cfg : SCConfig) (now : Nat) (e : KeyEvent)
    (s : EngineState) (h : s.completed = true) :
    handleKey cfg now e s = s := by
  unfold handleKey
  simp [h]

/-- Starting an ordered sequence: from progress 0, an `alt` key-down with
the Alt flag held advances to progress 1 and arms the per-step timer. -/
theorem handleKey_start (cfg : SCConfig) (now : Nat) (e : KeyEvent)
    (s : EngineState) (hlen : 2 < cfg.sequence.length)
    (hc : s.completed = false) (hp : s.progress = 0)
    (hk : lowercase e.key = "alt") (ha : e.altKey = true) :
    handleKey cfg now e s =
      { progress := 1, error := false, completed := false,
        currentKey := some "alt", pressedKeys := ["alt"], altPressed := true,
        timer := some (now + cfg.timeoutMs) } := by
  have h2 : cfg.sequence.length ≠ 2 := by omega
  unfold handleKey
  simp [hc, hp, hk, ha, h2, hlen]

/-- Advancing mid-sequence (not the final key): the matching key increments
progress, appends itself to the matched keys and re-arms the timer. -/
theorem handleKey_advance (cfg : SCConfig) (now : Nat) (e : KeyEvent)
    (s : EngineState) (hlen : 2 < cfg.sequence.length)
    (hc : s.completed = false) (hp : 0 < s.progress)
    (hk : cfg.sequence[s.progress]? = some (lowercase e.key))
    (hnf : s.progress + 1 ≠ cfg.sequence.length) :
    (handleKey cfg now e s).progress = s.progress + 1 ∧
    (handleKey cfg now e s).error = false ∧
    (handleKey cfg now e s).completed = false ∧
    (handleKey cfg now e s).pressedKeys = s.pressedKeys ++ [lowercase e.key] ∧
    (handleKey cfg now e s).timer = some (now + cfg.timeoutMs) := by
  have h2 : cfg.sequence.length ≠ 2 := by omega
  have hp0 : s.progress ≠ 0 := by omega
  unfold handleKey
  by_cases halt : lowercase e.key = "alt"
  · simp only [halt] at hk
    simp [hc, hp, hp0, hk, h2, hlen, hnf, halt]
  · simp [hc, hp, hp0, hk, h2, hlen, hnf, halt]

/-- Accepting the final key of an ordered sequence completes the engine
and disarms the timer. -/
theorem handleKey_final (cfg : SCConfig) (now : Nat) (e : KeyEvent)
    (s : EngineState) (hlen : 2 < cfg.sequence.length)
    (hc : s.completed = false) (hp : 0 < s.progress)
    (hk : cfg.sequence[s.progress]? = some (lowercase e.key))
    (hf : s.progress + 1 = cfg.sequence.length) :
    (handleKey cfg now e s).progress = s.progress + 1 ∧
    (handleKey cfg now e s).error = false ∧
    (handleKey cfg now e s).completed = true ∧
    (handleKey cfg now e s).pressedKeys = s.pressedKeys ++ [lowercase e.key] ∧
    (handleKey cfg now e s).timer = none := by
  have h2 : cfg.sequence.length ≠ 2 := by omega
  have hp0 : s.progress ≠ 0 := by omega
  unfold handleKey
  by_cases halt : lowercase e.key = "alt"
  · simp only [halt] at hk
    simp [hc, hp, hp0, hk, h2, hlen, hf, halt]
  · simp [hc, hp, hp0, hk, h2, hlen, hf, halt]

/-- A non-matching key after the sequence has started forces the error
state and cancels the pending timer. -/
theorem handleKey_wrong (cfg : SCConfig) (now : Nat) (e : KeyEvent)
    (s : EngineState) (hlen : 2 < cfg.sequence.length)
    (hc : s.completed = false) (hp : 0 < s.progress)
    (hk : cfg.sequence[s.progress]? ≠ some (lowercase e.key)) :
    handleKey cfg now e s = errorState := by
  have h2 : cfg.sequence.length ≠ 2 := by omega
  have hp0 : s.progress ≠ 0 := by omega
  unfold handleKey
  by_cases halt : lowercase e.key = "alt"
  · simp only [halt] at hk
    simp [hc, hp, hp0, hk, h2, hlen, halt, errorState, initState]
  · simp [hc, hp, hp0, hk, h2, hlen, halt, errorState, initState]

/-- Before the sequence has started, any event other than an Alt press
with the Alt flag held leaves every observable field unchanged (only the
internal `altPressed` tracking cell may change). -/
theorem handleKey_idle_other (cfg : SCConfig) (now : Nat) (e : KeyEvent)
    (s : EngineState) (hlen : 2 < cfg.sequence.length)
    (hc : s.completed = false) (hp : s.progress = 0)
    (hk : ¬ (lowercase e.key = "alt" ∧ e.altKey = true)) :
    (handleKey cfg now e s).progress = s.progress ∧
    (handleKey cfg now e s).error = s.error ∧
    (handleKey cfg now e s).completed = s.completed ∧
    (handleKey cfg now e s).pressedKeys = s.pressedKeys ∧
    (handleKey cfg now e s).timer = s.timer := by
  have h2 : cfg.sequence.length ≠ 2 := by omega
  unfold handleKey
  by_cases halt : lowercase e.key = "alt"
  · have hna : e.altKey ≠ true := fun hA => hk ⟨halt, hA⟩
    simp [hc, hp, h2, hlen, halt, hna]
  · simp [hc, hp, h2, hlen, halt]

/-- Ctrl+D chord branch, hit: with the primary modifier flag true and key
`d`, the engine completes in this single call. -/
theorem handleKey_chordD_hit (cfg : SCConfig) (now : Nat) (e : KeyEvent)
    (s : EngineState)
    (hd : cfg.sequence.length = 2 ∧ cfg.sequence[0]? = some "ctrl" ∧
      cfg.sequence[1]? = some "d")
    (hc : s.completed = false) (hctrl : primaryFlag cfg e = true)
    (hkey : lowercase e.key = "d") :
    handleKey cfg now e s =
      { s with completed := true, progress := 2,
               pressedKeys := ["ctrl", "d"] } := by
  unfold handleKey
  unfold primaryFlag at hctrl
  simp [hc, hd, hctrl, hkey]

/-- Ctrl+D chord branch, miss: any event without the primary modifier flag
or with a different key leaves all observable fields unchanged. -/
theorem handleKey_chordD_miss (cfg : SCConfig) (now : Nat) (e : KeyEvent)
    (s : EngineState)
    (hd : cfg.sequence.length = 2 ∧ cfg.sequence[0]? = some "ctrl" ∧
      cfg.sequence[1]? = some "d")
    (hc : s.completed = false)
    (hmiss : ¬ (primaryFlag cfg e = true ∧ lowercase e.key = "d")) :
    (handleKey cfg now e s).progress = s.progress ∧
    (handleKey cfg now e s).error = s.error ∧
    (handleKey cfg now e s).completed = s.completed ∧
    (handleKey cfg now e s).pressedKeys = s.pressedKeys ∧
    (handleKey cfg now e s).timer = s.timer := by
  unfold handleKey
  unfold primaryFlag at hmiss
  cases hm : cfg.isMac <;> simp [hm] at hmiss <;>
    by_cases halt : lowercase e.key = "alt" <;>
    simp [hc, hd, halt, hm] <;>
    split <;> simp_all

/-- Ctrl+G chord branch, hit. -/
theorem handleKey_chordG_hit (cfg : SCConfig) (now : Nat) (e : KeyEvent)
    (s : EngineState)
    (hg : cfg.sequence.length = 2 ∧ cfg.sequence[0]? = some "ctrl" ∧
      cfg.sequence[1]? = some "g")
    (hc : s.completed = false) (hctrl : primaryFlag cfg e = true)
    (hkey : lowercase e.key = "g") :
    handleKey cfg now e s =
      { s with completed := true, progress := 2,
               pressedKeys := ["ctrl", "g"] } := by
  have hnd : ¬ (cfg.sequence.length = 2 ∧ cfg.sequence[0]? = some "ctrl" ∧
      cfg.sequence[1]? = some "d") := by
    rintro ⟨-, -, h1⟩
    rw [hg.2.2] at h1
    simp at h1
  unfold handleKey
  unfold primaryFlag at hctrl
  simp [hc, hg, hnd, hctrl, hkey]

/-- Ctrl+G chord branch, miss. -/
theorem handleKey_chordG_miss (cfg : SCConfig) (now : Nat) (e : KeyEvent)
    (s : EngineState)
    (hg : cfg.sequence.length = 2 ∧ cfg.sequence[0]? = some "ctrl" ∧
      cfg.sequence[1]? = some "g")
    (hc : s.completed = false)
    (hmiss : ¬ (primaryFlag cfg e = true ∧ lowercase e.key = "g")) :
    (handleKey cfg now e s).progress = s.progress ∧
    (handleKey cfg now e s).error = s.error ∧
    (handleKey cfg now e s).completed = s.completed ∧
    (handleKey cfg now e s).pressedKeys = s.pressedKeys ∧
    (handleKey cfg now e s).timer = s.timer := by
  have hnd : ¬ (cfg.sequence.length = 2 ∧ cfg.sequence[0]? = some "ctrl" ∧
      cfg.sequence[1]? = some "d") := by
    rintro ⟨-, -, h1⟩
    rw [hg.2.2] at h1
    simp at h1
  unfold handleKey
  unfold primaryFlag at hmiss
  cases hm : cfg.isMac <;> simp [hm] at hmiss <;>
    by_cases halt : lowercase e.key = "alt" <;>
    simp [hc, hg, hnd, halt, hm] <;>
    split <;> simp_all

/-- Any event on a configuration that is neither a recognized chord nor an
ordered sequence (length ≤ 2 but not `ctrl+d`/`ctrl+g`) changes no
observable field. -/
theorem handleKey_other_config (cfg : SCConfig) (now : Nat) (e : KeyEvent)
    (s : EngineState)
    (hnd : ¬ (cfg.sequence.length = 2 ∧ cfg.sequence[0]? = some "ctrl" ∧
      cfg.sequence[1]? = some "d"))
    (hng : ¬ (cfg.sequence.length = 2 ∧ cfg.sequence[0]? = some "ctrl" ∧
      cfg.sequence[1]? = some "g"))
    (hlen : ¬ 2 < cfg.sequence.length) (hc : s.completed = false) :
    (handleKey cfg now e s).progress = s.progress ∧
    (handleKey cfg now e s).error = s.error ∧
    (handleKey cfg now e s).completed = s.completed ∧
    (handleKey cfg now e s).pressedKeys = s.pressedKeys ∧
    (handleKey cfg now e s).timer = s.timer := by
  unfold handleKey
  by_cases halt : lowercase e.key = "alt" <;> simp [hc, hnd, hng, hlen, halt]

/-- Completion of the tail of an ordered sequence: from a mid-sequence
state with a freshly armed timer, feeding the remaining target keys in
order, each strictly inside the timeout window of the previous accepted
key, completes the engine and extends the matched keys by exactly the
remaining suffix. -/
theorem runTimed_completes (cfg : SCConfig) (hlen : 2 < cfg.sequence.length)
    (es : List (Nat × KeyEvent)) :
    ∀ (s : EngineState) (i tprev : Nat),
      s.completed = false → 0 < i → s.progress = i →
      0 < es.length → i + es.length = cfg.sequence.length →
      es.map (fun te => lowercase te.2.key) = cfg.sequence.drop i →
      withinChain cfg.timeoutMs tprev es = true →
      s.timer = some (tprev + cfg.timeoutMs) →
      (runTimed cfg s es).completed = true ∧
      (runTimed cfg s es).progress = cfg.sequence.length ∧
      (runTimed cfg s es).pressedKeys =
        s.pressedKeys ++ cfg.sequence.drop i := by
  induction es with
  | nil =>
    intro s i tprev _ _ _ hne _ _ _ _
    simp at hne
  | cons te rest ih =>
    obtain ⟨t, e⟩ := te
    intro s i tprev hc hi hp _ hsum hmap hchain htimer
    have hilt : i < cfg.sequence.length := by
      simp at hsum
      omega
    have hdropi : cfg.sequence.drop i =
        cfg.sequence[i] :: cfg.sequence.drop (i + 1) :=
      List.drop_eq_getElem_cons hilt
    rw [hdropi] at hmap
    simp only [List.map_cons, List.cons.injEq] at hmap
    obtain ⟨hkey, hmaprest⟩ := hmap
    have hgk : cfg.sequence[s.progress]? = some (lowercase e.key) := by
      rw [hp, List.getElem?_eq_getElem hilt, hkey]
    simp only [withinChain, Bool.and_eq_true, decide_eq_true_eq] at hchain
    obtain ⟨ht, hchainrest⟩ := hchain
    have hstep : runTimed cfg s ((t, e) :: rest) =
        runTimed cfg (handleKey cfg t e s) rest := by
      simp only [runTimed, List.foldl_cons]
      congr 1
      unfold stepTimed
      rw [htimer]
      simp [Nat.not_le.mpr ht]
    rw [hstep]
    have hp0 : 0 < s.progress := by omega
    cases rest with
    | nil =>
      have hf : s.progress + 1 = cfg.sequence.length := by
        simp at hsum
        omega
      obtain ⟨hpr', herr', hcomp', hpk', htm'⟩ :=
        handleKey_final cfg t e s hlen hc hp0 hgk hf
      have hdrop1 : cfg.sequence.drop (i + 1) = [] :=
        List.drop_eq_nil_of_le (by omega)
      refine ⟨?_, ?_, ?_⟩
      · simpa [runTimed] using hcomp'
      · simp only [runTimed, List.foldl_nil]
        omega
      · simp [runTimed, hpk', hdropi, hdrop1, hkey]
    | cons r rs =>
      have hnf : s.progress + 1 ≠ cfg.sequence.length := by
        simp at hsum
        omega
      obtain ⟨hpr', herr', hc', hpk', htm'⟩ :=
        handleKey_advance cfg t e s hlen hc hp0 hgk hnf
      have hrec := ih (handleKey cfg t e s) (i + 1) t hc' (by omega)
        (by rw [hpr', hp]) (by simp) (by simp at hsum ⊢; omega)
        hmaprest hchainrest (by rw [htm'])
      refine ⟨hrec.1, hrec.2.1, ?_⟩
      rw [hrec.2.2, hpk', hkey, hdropi]
      simp

/-- C1: for every ordered-sequence shortcut definition (length > 2, first
element the secondary modifier `alt`), feeding `handleKey` the
secondary-modifier press with its held-flag true, followed by the key
events for `sequence[1..N-1]` in order, each arriving within the per-step
timeout of the previous accepted key, leaves the engine completed with
`progress = N` and `pressedKeys` equal to the full target sequence. -/
theorem claim_C1_ordered_sequence_completion (cfg : SCConfig) (t0 : Nat)
    (e0 : KeyEvent) (es : List (Nat × KeyEvent))
    (hlen : 2 < cfg.sequence.length)
    (hhead : cfg.sequence[0]? = some "alt")
    (h0k : lowercase e0.key = "alt") (h0a : e0.altKey = true)
    (hmap : es.map (fun te => lowercase te.2.key) = cfg.sequence.drop 1)
    (hchain : withinChain cfg.timeoutMs t0 es = true) :
    (runTimed cfg initState ((t0, e0) :: es)).completed = true ∧
    (runTimed cfg initState ((t0, e0) :: es)).progress =
      cfg.sequence.length ∧
    (runTimed cfg initState ((t0, e0) :: es)).pressedKeys = cfg.sequence := by
  have h0lt : 0 < cfg.sequence.length := by omega
  have h0 : cfg.sequence[0] = "alt" := by
    have h := (List.getElem?_eq_getElem h0lt).symm.trans hhead
    simpa using h
  have hseq : cfg.sequence = "alt" :: cfg.sequence.drop 1 := by
    have h := List.drop_eq_getElem_cons h0lt
    rw [List.drop_zero, h0] at h
    exact h
  have hlenes : 1 + es.length = cfg.sequence.length := by
    have h := congrArg List.length hmap
    simp at h
    omega
  have hne : 0 < es.length := by omega
  have hstart : handleKey cfg t0 e0 initState =
      { progress := 1, error := false, completed := false,
        currentKey := some "alt", pressedKeys := ["alt"], altPressed := true,
        timer := some (t0 + cfg.timeoutMs) } :=
    handleKey_start cfg t0 e0 initState hlen rfl rfl h0k h0a
  have hstep : runTimed cfg initState ((t0, e0) :: es) =
      runTimed cfg (handleKey cfg t0 e0 initState) es := by
    simp only [runTimed, List.foldl_cons]
    rfl
  rw [hstep, hstart]
  have hmain := runTimed_completes cfg hlen es
    { progress := 1, error := false, completed := false,
      currentKey := some "alt", pressedKeys := ["alt"], altPressed := true,
      timer := some (t0 + cfg.timeoutMs) } 1 t0 rfl (by omega) rfl
    hne hlenes hmap hchain rfl
  refine ⟨hmain.1, hmain.2.1, ?_⟩
  rw [hmain.2.2]
  simpa using hseq.symm

/-- Witness for C1: the spec's concrete alignTop scenario, events
`alt`(t=0), `x`(t=100), `a`(t=300), `t`(t=500). -/
theorem claim_C1_witness :
    (runTimed cfgAlignTop initState
      [(0, evAlt), (100, evPlain "x"), (300, evPlain "a"),
       (500, evPlain "t")]).completed = true ∧
    (runTimed cfgAlignTop initState
      [(0, evAlt), (100, evPlain "x"), (300, evPlain "a"),
       (500, evPlain "t")]).pressedKeys = ["alt", "x", "a", "t"] := by
  have h := claim_C1_ordered_sequence_completion cfgAlignTop 0 evAlt
    [(100, evPlain "x"), (300, evPlain "a"), (500, evPlain "t")]
    (by decide) (by decide) (by decide) (by decide) (by decide) (by decide)
  exact ⟨h.1, h.2.2⟩

/-- C3: for every ordered-sequence definition, once the sequence has been
started (progress > 0, not completed), a key event whose normalized key
differs from `sequence[progress]` transitions the engine to the error
state in that call: error set, progress 0, matched keys empty, and the
pending per-step timer cancelled. -/
theorem claim_C3_wrong_key_errors (cfg : SCConfig) (now : Nat) (e : KeyEvent)
    (s : EngineState) (hlen : 2 < cfg.sequence.length)
    (hc : s.completed = false) (hp : 0 < s.progress)
    (hk : cfg.sequence[s.progress]? ≠ some (lowercase e.key)) :
    (handleKey cfg now e s).error = true ∧
    (handleKey cfg now e s).progress = 0 ∧
    (handleKey cfg now e s).pressedKeys = [] ∧
    (handleKey cfg now e s).timer = none := by
  rw [handleKey_wrong cfg now e s hlen hc hp hk]
  exact ⟨rfl, rfl, rfl, rfl⟩

/-- Witness for C3: alignTop, Alt accepted, then `q` instead of `x`. -/
theorem claim_C3_witness :
    (handleKey cfgAlignTop 100 (evPlain "q")
      (handleKey cfgAlignTop 0 evAlt initState)).error = true ∧
    (handleKey cfgAlignTop 100 (evPlain "q")
      (handleKey cfgAlignTop 0 evAlt initState)).pressedKeys = [] := by
  have h := claim_C3_wrong_key_errors cfgAlignTop 100 (evPlain "q")
    (handleKey cfgAlignTop 0 evAlt initState) (by decide) (by decide)
    (by decide) (by decide)
  exact ⟨h.1, h.2.2.1⟩

/-- C4: an accepted non-final key arms the per-step timer for `timeoutMs`
after its arrival, and when that timer expires (no matching key arrived
within the window) its callback puts the engine in the error state:
error set, progress 0, matched keys empty. -/
theorem claim_C4_timer_expiry_errors (cfg : SCConfig) (now : Nat)
    (e : KeyEvent) (s : EngineState) (hlen : 2 < cfg.sequence.length)
    (hc : s.completed = false) (hp : 0 < s.progress)
    (hk : cfg.sequence[s.progress]? = some (lowercase e.key))
    (hnf : s.progress + 1 ≠ cfg.sequence.length) :
    (handleKey cfg now e s).timer = some (now + cfg.timeoutMs) ∧
    (fireTimer (handleKey cfg now e s)).error = true ∧
    (fireTimer (handleKey cfg now e s)).progress = 0 ∧
    (fireTimer (handleKey cfg now e s)).pressedKeys = [] := by
  obtain ⟨-, -, -, -, htm⟩ := handleKey_advance cfg now e s hlen hc hp hk hnf
  exact ⟨htm, rfl, rfl, rfl⟩

/-- Witness for C4: after alt then x on alignTop the timer is armed and
its expiry produces the error state. -/
theorem claim_C4_witness :
    (handleKey cfgAlignTop 100 (evPlain "x")
      (handleKey cfgAlignTop 0 evAlt initState)).timer = some 1600 ∧
    (fireTimer (handleKey cfgAlignTop 100 (evPlain "x")
      (handleKey cfgAlignTop 0 evAlt initState))).error = true := by
  have h := claim_C4_timer_expiry_errors cfgAlignTop 100 (evPlain "x")
    (handleKey cfgAlignTop 0 evAlt initState) (by decide) (by decide)
    (by decide) (by decide) (by decide)
  exact ⟨h.1, h.2.1⟩

/-- C5 counterexample: with the alignTop sequence the engine is driven
to the error state (Alt accepted, then a wrong key) and then a fresh Alt
press with the flag held is delivered; without any `reset()` call the
error flag clears and the sequence restarts — a key event does leave the
Error state. -/
theorem claim_C5_counterexample :
    (handleKey cfgAlignTop 100 (evPlain "q")
      (handleKey cfgAlignTop 0 evAlt initState)).error = true ∧
    (handleKey cfgAlignTop 200 evAlt
      (handleKey cfgAlignTop 100 (evPlain "q")
        (handleKey cfgAlignTop 0 evAlt initState))).error = false ∧
    (handleKey cfgAlignTop 200 evAlt
      (handleKey cfgAlignTop 100 (evPlain "q")
        (handleKey cfgAlignTop 0 evAlt initState))).progress = 1 := by
  decide

/-- C5 (amended): in the error state (error set, progress 0, not
completed) of an ordered-sequence configuration, every key event other
than a fresh Alt press with the Alt flag held leaves the error flag set;
an Alt press with the flag held restarts the sequence and clears the
error flag without `reset()`; and `reset()` returns the engine to the
fresh idle state. -/
theorem claim_C5_error_holds_until_restart_or_reset (cfg : SCConfig)
    (now : Nat) (s : EngineState) (hlen : 2 < cfg.sequence.length)
    (herr : s.error = true) (hc : s.completed = false)
    (hp : s.progress = 0) :
    (∀ e : KeyEvent, ¬ (lowercase e.key = "alt" ∧ e.altKey = true) →
      (handleKey cfg now e s).error = true) ∧
    (∀ e : KeyEvent, lowercase e.key = "alt" → e.altKey = true →
      (handleKey cfg now e s).error = false ∧
      (handleKey cfg now e s).progress = 1) ∧
    reset s = initState := by
  refine ⟨?_, ?_, rfl⟩
  · intro e he
    obtain ⟨-, herr', -, -, -⟩ :=
      handleKey_idle_other cfg now e s hlen hc hp he
    rw [herr', herr]
  · intro e hk ha
    rw [handleKey_start cfg now e s hlen hc hp hk ha]
    exact ⟨rfl, rfl⟩

/-- Witness for C5 (amended) at the concrete error state of alignTop. -/
theorem claim_C5_witness :
    (handleKey cfgAlignTop 0 (evPlain "q") errorState).error = true ∧
    reset errorState = initState := by
  have h := claim_C5_error_holds_until_restart_or_reset cfgAlignTop 0
    errorState (by decide) (by decide) (by decide) (by decide)
  exact ⟨h.1 (evPlain "q") (by decide), h.2.2⟩

/-- Unrelated events never complete (nor arm a timer on) a `ctrl`-chord
configuration. -/
theorem runTimed_chord_preserves (cfg : SCConfig) (c : String)
    (hseq : cfg.sequence = ["ctrl", c]) (hcdg : c = "d" ∨ c = "g")
    (pr : List (Nat × KeyEvent)) :
    ∀ s : EngineState, s.completed = false → s.timer = none →
      (∀ te ∈ pr, ¬ (primaryFlag cfg te.2 = true ∧
        lowercase te.2.key = c)) →
      (runTimed cfg s pr).completed = false ∧
      (runTimed cfg s pr).timer = none := by
  induction pr with
  | nil => intro s hc htm _; exact ⟨hc, htm⟩
  | cons te rest ih =>
    obtain ⟨t, e⟩ := te
    intro s hc htm hmiss
    have hstep : runTimed cfg s ((t, e) :: rest) =
        runTimed cfg (handleKey cfg t e s) rest := by
      simp only [runTimed, List.foldl_cons]
      congr 1
      unfold stepTimed
      rw [htm]
    rw [hstep]
    have hm : ¬ (primaryFlag cfg e = true ∧ lowercase e.key = c) :=
      hmiss (t, e) (List.mem_cons_self _ _)
    rcases hcdg with rfl | rfl
    · obtain ⟨-, -, hcm, -, htmm⟩ := handleKey_chordD_miss cfg t e s
        (by simp [hseq]) hc hm
      exact ih (handleKey cfg t e s) (hcm.trans hc) (htmm.trans htm)
        fun te hte => hmiss te (List.mem_cons_of_mem _ hte)
    · obtain ⟨-, -, hcm, -, htmm⟩ := handleKey_chordG_miss cfg t e s
        (by simp [hseq]) hc hm
      exact ih (handleKey cfg t e s) (hcm.trans hc) (htmm.trans htm)
        fun te hte => hmiss te (List.mem_cons_of_mem _ hte)

/-- C2 counterexample: with the catalog's mac chord variant `['cmd','d']`
on a mac, a single Cmd+D event (primary-modifier flag true, key `d` equal
to the second token) does not complete the engine — the chord branches
require the first token to be literally `'ctrl'`, so the call leaves the
state unchanged. -/
theorem claim_C2_counterexample :
    primaryFlag cfgCmdD evCmdD = true ∧
    handleKey cfgCmdD 0 evCmdD initState = initState ∧
    (handleKey cfgCmdD 0 evCmdD initState).completed = false := by
  decide

/-- C2 (amended): for the chord definitions whose first element is the
token `ctrl` — the catalog's windows variants `['ctrl','d']` and
`['ctrl','g']`, which are what every caller passes on both platforms — a
single call to `handleKey` with the primary-modifier flag true and
normalized key equal to the second token sets completed and progress 2 in
that one call, regardless of unrelated key events delivered beforehand. -/
theorem claim_C2_ctrl_chord_completes (cfg : SCConfig) (c : String)
    (prior : List (Nat × KeyEvent)) (t : Nat) (e : KeyEvent)
    (hseq : cfg.sequence = ["ctrl", c]) (hcdg : c = "d" ∨ c = "g")
    (hprior : ∀ te ∈ prior, ¬ (primaryFlag cfg te.2 = true ∧
      lowercase te.2.key = c))
    (hctrl : primaryFlag cfg e = true) (hkey : lowercase e.key = c) :
    (runTimed cfg initState (prior ++ [(t, e)])).completed = true ∧
    (runTimed cfg initState (prior ++ [(t, e)])).progress = 2 := by
  have hpre := runTimed_chord_preserves cfg c hseq hcdg prior initState
    rfl rfl hprior
  have hsnoc : runTimed cfg initState (prior ++ [(t, e)]) =
      stepTimed cfg (runTimed cfg initState prior) (t, e) := by
    unfold runTimed
    rw [List.foldl_append]
    rfl
  have hstep : stepTimed cfg (runTimed cfg initState prior) (t, e) =
      handleKey cfg t e (runTimed cfg initState prior) := by
    unfold stepTimed
    rw [hpre.2]
  rw [hsnoc, hstep]
  rcases hcdg with rfl | rfl
  · rw [handleKey_chordD_hit cfg t e _ (by simp [hseq]) hpre.1 hctrl hkey]
    exact ⟨rfl, rfl⟩
  · rw [handleKey_chordG_hit cfg t e _ (by simp [hseq]) hpre.1 hctrl hkey]
    exact ⟨rfl, rfl⟩

/-- Witness for C2 (amended): an unrelated `q` event followed by Ctrl+D
completes the `['ctrl','d']` chord in one call. -/
theorem claim_C2_witness :
    (runTimed cfgCtrlD initState
      [(0, evPlain "q"), (100, evCtrlD)]).completed = true ∧
    (runTimed cfgCtrlD initState
      [(0, evPlain "q"), (100, evCtrlD)]).progress = 2 := by
  exact claim_C2_ctrl_chord_completes cfgCtrlD "d" [(0, evPlain "q")]
    100 evCtrlD (by decide) (Or.inl rfl) (by decide) (by decide) (by decide)

/-- C10: once an ordered sequence has been started (progress ≥ 1), the
engine's response to a key event depends only on the event's lowercased
key string, not on its modifier flags: two events with equal key but
arbitrary (possibly different) altKey/ctrlKey/metaKey flags delivered in
the same state produce the same progress, error, completed and matched
keys. -/
theorem claim_C10_flags_irrelevant_after_start (cfg : SCConfig) (now : Nat)
    (e1 e2 : KeyEvent) (s : EngineState) (hlen : 2 < cfg.sequence.length)
    (hp : 1 ≤ s.progress) (hkey : e1.key = e2.key) :
    (handleKey cfg now e1 s).progress = (handleKey cfg now e2 s).progress ∧
    (handleKey cfg now e1 s).error = (handleKey cfg now e2 s).error ∧
    (handleKey cfg now e1 s).completed =
      (handleKey cfg now e2 s).completed ∧
    (handleKey cfg now e1 s).pressedKeys =
      (handleKey cfg now e2 s).pressedKeys := by
  have hkl : lowercase e1.key = lowercase e2.key := by rw [hkey]
  by_cases hc : s.completed = true
  · rw [handleKey_completed cfg now e1 s hc,
        handleKey_completed cfg now e2 s hc]
    exact ⟨rfl, rfl, rfl, rfl⟩
  · have hc' : s.completed = false := by
      cases h : s.completed
      · rfl
      · exact absurd h hc
    have hp0 : 0 < s.progress := hp
    by_cases hm : cfg.sequence[s.progress]? = some (lowercase e1.key)
    · by_cases hf : s.progress + 1 = cfg.sequence.length
      · obtain ⟨a1, b1, c1, d1, -⟩ :=
          handleKey_final cfg now e1 s hlen hc' hp0 hm hf
        obtain ⟨a2, b2, c2, d2, -⟩ :=
          handleKey_final cfg now e2 s hlen hc' hp0 (hkl ▸ hm) hf
        refine ⟨by rw [a1, a2], by rw [b1, b2], by rw [c1, c2], ?_⟩
        rw [d1, d2, hkl]
      · obtain ⟨a1, b1, c1, d1, -⟩ :=
          handleKey_advance cfg now e1 s hlen hc' hp0 hm hf
        obtain ⟨a2, b2, c2, d2, -⟩ :=
          handleKey_advance cfg now e2 s hlen hc' hp0 (hkl ▸ hm) hf
        refine ⟨by rw [a1, a2], by rw [b1, b2], by rw [c1, c2], ?_⟩
        rw [d1, d2, hkl]
    · rw [handleKey_wrong cfg now e1 s hlen hc' hp0 hm,
          handleKey_wrong cfg now e2 s hlen hc' hp0 (hkl ▸ hm)]
      exact ⟨rfl, rfl, rfl, rfl⟩

/-- Witness for C10: after the Alt start of alignTop, a bare `x` and an
`x` carrying every modifier flag advance the engine identically. -/
theorem claim_C10_witness :
    (handleKey cfgAlignTop 100 (evPlain "x")
      (handleKey cfgAlignTop 0 evAlt initState)).progress =
    (handleKey cfgAlignTop 100
      { key := "x", altKey := true, ctrlKey := true, metaKey := true }
      (handleKey cfgAlignTop 0 evAlt initState)).progress := by
  exact (claim_C10_flags_irrelevant_after_start cfgAlignTop 100
    (evPlain "x")
    { key := "x", altKey := true, ctrlKey := true, metaKey := true }
    (handleKey cfgAlignTop 0 evAlt initState)
    (by decide) (by decide) (by decide)).1

/-- The first element of a list, as a one-element `take`. -/
theorem take_one_of_getElem (l : List String) (a : String)
    (h : l[0]? = some a) : l.take 1 = [a] := by
  cases l with
  | nil => simp at h
  | cons x xs =>
    simp at h
    simp [h]

/-- Extending a `take` by one known element. -/
theorem take_succ_of_getElem (l : List String) (n : Nat) (a : String)
    (h : l[n]? = some a) : l.take (n + 1) = l.take n ++ [a] := by
  rw [List.take_succ, h]
  rfl

/-- C9: in every state reachable under any interleaving of `handleKey`
calls, expiries of the armed per-step timer, and `reset` calls — for the
configurations this app instantiates, whose ordered sequences start with
`alt` — `pressedKeys` is exactly the length-`progress` prefix of the
target sequence; error, expiry and reset transitions that zero progress
also empty it, and completion leaves it equal to the whole sequence. -/
theorem claim_C9_pressed_keys_prefix (cfg : SCConfig) (s : EngineState)
    (hr : Reachable cfg s)
    (hseq : 2 < cfg.sequence.length → cfg.sequence[0]? = some "alt") :
    s.pressedKeys = cfg.sequence.take s.progress := by
  induction hr with
  | init => rfl
  | reset s' _ _ => rfl
  | expire s' d _ _ _ => rfl
  | key s' now e hr ih =>
    by_cases hc : s'.completed = true
    · rw [handleKey_completed cfg now e s' hc]
      exact ih
    · have hc' : s'.completed = false := by
        cases h : s'.completed
        · rfl
        · exact absurd h hc
      by_cases hd : cfg.sequence.length = 2 ∧
          cfg.sequence[0]? = some "ctrl" ∧ cfg.sequence[1]? = some "d"
      · obtain ⟨a, b, hab⟩ := List.length_eq_two.mp hd.1
        have ha : a = "ctrl" := by
          have h := hd.2.1
          rw [hab] at h
          simpa using h
        have hb : b = "d" := by
          have h := hd.2.2
          rw [hab] at h
          simpa using h
        by_cases hhit : primaryFlag cfg e = true ∧ lowercase e.key = "d"
        · rw [handleKey_chordD_hit cfg now e s' hd hc' hhit.1 hhit.2]
          simp [hab, ha, hb]
        · obtain ⟨hpr, -, -, hpk, -⟩ :=
            handleKey_chordD_miss cfg now e s' hd hc' hhit
          rw [hpr, hpk]
          exact ih
      · by_cases hg : cfg.sequence.length = 2 ∧
            cfg.sequence[0]? = some "ctrl" ∧ cfg.sequence[1]? = some "g"
        · obtain ⟨a, b, hab⟩ := List.length_eq_two.mp hg.1
          have ha : a = "ctrl" := by
            have h := hg.2.1
            rw [hab] at h
            simpa using h
          have hb : b = "g" := by
            have h := hg.2.2
            rw [hab] at h
            simpa using h
          by_cases hhit : primaryFlag cfg e = true ∧ lowercase e.key = "g"
          · rw [handleKey_chordG_hit cfg now e s' hg hc' hhit.1 hhit.2]
            simp [hab, ha, hb]
          · obtain ⟨hpr, -, -, hpk, -⟩ :=
              handleKey_chordG_miss cfg now e s' hg hc' hhit
            rw [hpr, hpk]
            exact ih
        · by_cases hlen : 2 < cfg.sequence.length
          · by_cases hp0 : s'.progress = 0
            · by_cases hstart : lowercase e.key = "alt" ∧ e.altKey = true
              · rw [handleKey_start cfg now e s' hlen hc' hp0 hstart.1
                  hstart.2]
                exact (take_one_of_getElem cfg.sequence "alt"
                  (hseq hlen)).symm
              · obtain ⟨hpr, -, -, hpk, -⟩ :=
                  handleKey_idle_other cfg now e s' hlen hc' hp0 hstart
                rw [hpr, hpk]
                exact ih
            · have hp1 : 0 < s'.progress := Nat.pos_of_ne_zero hp0
              by_cases hm : cfg.sequence[s'.progress]? =
                  some (lowercase e.key)
              · by_cases hf : s'.progress + 1 = cfg.sequence.length
                · obtain ⟨hpr, -, -, hpk, -⟩ :=
                    handleKey_final cfg now e s' hlen hc' hp1 hm hf
                  rw [hpr, hpk, ih,
                    take_succ_of_getElem cfg.sequence s'.progress
                      (lowercase e.key) hm]
                · obtain ⟨hpr, -, -, hpk, -⟩ :=
                    handleKey_advance cfg now e s' hlen hc' hp1 hm hf
                  rw [hpr, hpk, ih,
                    take_succ_of_getElem cfg.sequence s'.progress
                      (lowercase e.key) hm]
              · rw [handleKey_wrong cfg now e s' hlen hc' hp1 hm]
                rfl
          · obtain ⟨hpr, -, -, hpk, -⟩ :=
              handleKey_other_config cfg now e s' hd hg hlen hc'
            rw [hpr, hpk]
            exact ih

/-- Witness for C9: the invariant at the concrete state reached after the
Alt press on alignTop. -/
theorem claim_C9_witness :
    (handleKey cfgAlignTop 0 evAlt initState).pressedKeys =
      cfgAlignTop.sequence.take
        (handleKey cfgAlignTop 0 evAlt initState).progress := by
  exact claim_C9_pressed_keys_prefix cfgAlignTop
    (handleKey cfgAlignTop 0 evAlt initState)
    (Reachable.key initState 0 evAlt Reachable.init) (by decide)

/-- C6 counterexample: on the easy tier the configured per-challenge limit
is 8 s = 8000 ms, but a timed-out attempt is recorded with a hard-coded
elapsed time of 5000 ms. -/
theorem claim_C6_counterexample :
    (handleTimeout 2 (initSession 2)).times = [5000] ∧
    difficultyTime Difficulty.easy * 1000 = 8000 ∧ (5000 : Nat) ≠ 8000 := by
  decide

/-- C6 (amended): whenever a challenge's countdown reaches zero before the
engine completes, the attempt is recorded with a true timed-out flag and a
constant elapsed time of 5000 ms — regardless of the tier's configured
limit (easy 8 s, normal 5 s, hard 3 s) — and the score is decremented by 1
with a floor of 0 (truncated `Nat` subtraction). -/
theorem claim_C6_timeout_records_constant (k : Nat) (s : SessionState) :
    (handleTimeout k s).times = s.times ++ [5000] ∧
    (handleTimeout k s).timedOut = s.timedOut ++ [true] ∧
    (handleTimeout k s).score = s.score - 1 ∧
    difficultyTime Difficulty.easy = 8 ∧
    difficultyTime Difficulty.normal = 5 ∧
    difficultyTime Difficulty.hard = 3 := by
  unfold handleTimeout advanceOrSummary
  split <;> exact ⟨rfl, rfl, rfl, rfl, rfl, rfl⟩

/-- Folding session outcomes deducts one point per timeout, with the
`Nat` subtraction keeping the floor at 0. -/
theorem sessionScore_fold (k : Nat) (os : List (Option Nat)) :
    ∀ s : SessionState, (os.foldl (sessionStep k) s).score =
      s.score - countTimedOut os := by
  induction os with
  | nil =>
    intro s
    simp [countTimedOut]
  | cons o rest ih =>
    intro s
    cases o with
    | some elapsed =>
      simp only [List.foldl_cons, sessionStep]
      rw [ih]
      have hsc : (handleComplete k elapsed s).score = s.score := by
        unfold handleComplete advanceOrSummary
        split <;> rfl
      rw [hsc]
      simp [countTimedOut, List.countP_cons]
    | none =>
      simp only [List.foldl_cons, sessionStep]
      rw [ih]
      have hsc : (handleTimeout k s).score = s.score - 1 := by
        unfold handleTimeout advanceOrSummary
        split <;> rfl
      rw [hsc]
      simp [countTimedOut, List.countP_cons]
      omega

/-- C7: a session of K challenges of which exactly T end by timeout (and
the rest by completion) finishes with score max(0, K − T): the score
starts at `maxScore = K`, completions never change it, and each timeout
deducts one point with a floor of 0. -/
theorem claim_C7_session_score (os : List (Option Nat)) :
    (initSession os.length).score = os.length ∧
    (∀ (k elapsed : Nat) (s : SessionState),
      (handleComplete k elapsed s).score = s.score) ∧
    ((runSession os).score : Int) =
      max 0 ((os.length : Int) - (countTimedOut os : Int)) := by
  refine ⟨rfl, ?_, ?_⟩
  · intro k elapsed s
    unfold handleComplete advanceOrSummary
    split <;> rfl
  · have h := sessionScore_fold os.length os (initSession os.length)
    have hle : countTimedOut os ≤ os.length := List.countP_le_length _
    unfold runSession
    rw [h]
    simp only [initSession]
    omega

/-- C8: the key normalizer is a pure total function: with the
secondary-modifier flag active a single ASCII letter is returned
lowercased directly; otherwise a raw identifier found in the fixed
substitution table is mapped to its intended letter; otherwise the
identifier is returned lowercased unchanged. -/
theorem claim_C8_normalizeKey_cases (key : String) (alt : Bool) :
    ((alt && isSingleAsciiLetter key) = true →
      normalizeKey key alt = lowercase key) ∧
    ((alt && isSingleAsciiLetter key) = false →
      ∀ v, List.lookup key macKeyMap = some v → normalizeKey key alt = v) ∧
    ((alt && isSingleAsciiLetter key) = false →
      List.lookup key macKeyMap = none →
      normalizeKey key alt = lowercase key) := by
  refine ⟨?_, ?_, ?_⟩
  · intro h
    simp [normalizeKey, h]
  · intro h v hv
    simp [normalizeKey, h, hv]
  · intro h hv
    simp [normalizeKey, h, hv]

/-- Witness for C8: the option-substituted `≈` maps back to `x`, a plain
capital letter under Alt lowercases directly, and an unknown identifier
falls through to plain lowercasing. -/
theorem claim_C8_witness :
    normalizeKey "≈" false = "x" ∧
    normalizeKey "X" true = lowercase "X" ∧
    normalizeKey "Enter" false = lowercase "Enter" := by
  refine ⟨?_, ?_, ?_⟩
  · exact (claim_C8_normalizeKey_cases "≈" false).2.1 (by decide) "x"
      (by decide)
  · exact (claim_C8_normalizeKey_cases "X" true).1 (by decide)
  · exact (claim_C8_normalizeKey_cases "Enter" false).2.2 (by decide)
      (by decide)

end Shortcut
